import Mathlib

/-!
Verification of the cache-locality stride benchmark (src/main.rs).

The development is a shallow embedding of `run_test` and `plot_data`:
machine integers (`usize`, `u8`) are `Nat` with explicit reduction
modulo `2 ^ 64` resp. `256`, Rust panics (division by zero, index out
of bounds) are an explicit error type, and the thread-local RNG is an
input stream of draws.  All definitions are translated directly from
the source; the progress-observer crate (an external dependency whose
source is not in this repository) is modelled from the specification.
-/

/-- Word width of `usize` (the common 64-bit target). -/
def USIZE : Nat := 2 ^ 64

/-- The two random draws consumed by one iteration of the sampling
loop: `val` models `rng.gen::<usize>()` (line 99) and `dir` models
`rng.gen::<bool>()` (line 101). -/
structure RandStep where
  val : Nat
  dir : Bool
  deriving DecidableEq

/-- The mutable per-trial state of the sampling loop:
`position: usize` and the `u8` checksum `sum` (lines 86-87). -/
structure TrialState where
  position : Nat
  sum : Nat
  deriving DecidableEq

/-- Initial per-trial state, `let mut sum: u8 = 0; let mut position: usize = 0;` (lines 86-87). -/
def initState : TrialState := { position := 0, sum := 0 }

/-- The Rust panics reachable from the sampling loop:
`step % step_size` with `step_size == 0`, `position %= total_size`
with `total_size == 0`, and an out-of-bounds `mem[position]`. -/
inductive TrialErr where
  | divZeroStep
  | divZeroPos
  | oob
  deriving DecidableEq

/-- Rust `usize::wrapping_add` (line 102). -/
def wrappingAdd (a b : Nat) : Nat := (a + b) % USIZE

/-- Rust `usize::wrapping_sub` (line 104). -/
def wrappingSub (a b : Nat) : Nat := (a + (USIZE - b % USIZE)) % USIZE

/-- Lines 99-100: a fresh full-width draw reduced modulo `step_size`. -/
def drawStep (step_size : Nat) (r : RandStep) : Nat := r.val % step_size

/-- Position update of one iteration (lines 101-106): wrapping add or
subtract of the step at word width depending on the random direction,
then reduction modulo `total_size`. -/
def updatePos (total_size p step : Nat) (dir : Bool) : Nat :=
  (if dir then wrappingAdd p step else wrappingSub p step) % total_size

/-- One iteration of the sampling loop, lines 99-107 of `run_test`:
draw the bounded step, wrapping add or subtract it onto `position`,
reduce modulo `total_size`, read `mem[position]` and accumulate the
`u8` wrapping checksum.  Rust's division-by-zero and out-of-bounds
panics are the explicit error outcomes; the `total_size = 0` test is
hoisted before the (observationally dead) wrapped-position
computation, preserving the order of the two possible panics. -/
def stepIter (mem : List Nat) (total_size step_size : Nat) (s : TrialState)
    (r : RandStep) : Except TrialErr TrialState :=
  if step_size = 0 then .error .divZeroStep
  else if total_size = 0 then .error .divZeroPos
  else
    match mem.get? (updatePos total_size s.position (drawStep step_size r) r.dir) with
    | none => .error .oob
    | some b =>
      .ok { position := updatePos total_size s.position (drawStep step_size r) r.dir,
            sum := (s.sum + b) % 256 }

/-- The sampling loop of one trial (lines 89-115), run over the list
of per-iteration random draws; the list length is the number of
iterations (`.take(args.iterations)`). -/
def runTrial (mem : List Nat) (total_size step_size : Nat) :
    List RandStep → TrialState → Except TrialErr TrialState
  | [], s => .ok s
  | r :: rs, s =>
    match stepIter mem total_size step_size s r with
    | .error e => .error e
    | .ok s' => runTrial mem total_size step_size rs s'

/-- The sequence of intermediate states produced by the sampling loop,
one per completed iteration (truncated at a panic). -/
def trialStates (mem : List Nat) (total_size step_size : Nat) :
    List RandStep → TrialState → List TrialState
  | [], _ => []
  | r :: rs, s =>
    match stepIter mem total_size step_size s r with
    | .error _ => []
    | .ok s' => s' :: trialStates mem total_size step_size rs s'

/-- Event counters instrumenting the sampling loop: the number of
`position` updates (lines 101-106), of buffer reads `mem[position]`
(line 107), and of wrapping checksum additions (line 107). -/
structure TrialCounters where
  updates : Nat
  reads : Nat
  adds : Nat
  deriving DecidableEq

/-- The iteration `stepIter` instrumented with the event counters: the update
counter is bumped at the position update, the read and add counters
at the `sum = sum.wrapping_add(mem[position])` line. -/
def stepIterInstr (mem : List Nat) (total_size step_size : Nat)
    (s : TrialState) (c : TrialCounters) (r : RandStep) :
    Except TrialErr (TrialState × TrialCounters) :=
  if step_size = 0 then .error .divZeroStep
  else if total_size = 0 then .error .divZeroPos
  else
    match mem.get? (updatePos total_size s.position (drawStep step_size r) r.dir) with
    | none => .error .oob
    | some b =>
      .ok ({ position := updatePos total_size s.position (drawStep step_size r) r.dir,
             sum := (s.sum + b) % 256 },
           { updates := c.updates + 1, reads := c.reads + 1, adds := c.adds + 1 })

/-- The instrumented sampling loop. -/
def runTrialInstr (mem : List Nat) (total_size step_size : Nat) :
    List RandStep → TrialState × TrialCounters →
    Except TrialErr (TrialState × TrialCounters)
  | [], sc => .ok sc
  | r :: rs, sc =>
    match stepIterInstr mem total_size step_size sc.1 sc.2 r with
    | .error e => .error e
    | .ok sc' => runTrialInstr mem total_size step_size rs sc'

/-- Doubling step `step_size <<= 1` (line 136): a left shift of a `usize` discards
the bits shifted out, i.e. doubles modulo `2 ^ 64`. -/
def nextStep (s : Nat) : Nat := s * 2 % USIZE

/-- The step sizes at which the driver loop `while step_size <=
max_step_size` (lines 84-137) enters a trial, starting from `s` —
computed with explicit fuel since the loop need not terminate for
every state. -/
def driverSteps : Nat → Nat → Nat → List Nat
  | 0, _, _ => []
  | f + 1, s, m => if s ≤ m then s :: driverSteps f (nextStep s) m else []

/-- The driver loop, started at step size `s0` with bound `M`,
terminates after entering exactly the trials `L`: some fuel produces
`L` without being exhausted. -/
def loopTerm (s0 M : Nat) (L : List Nat) : Prop :=
  ∃ f, driverSteps f s0 M = L ∧ L.length < f

/-- The random draws consumed by trial number `t`: the thread-local
RNG is a stream of independent draws, indexed here by trial and
iteration. -/
def trialRand (rng : Nat → Nat → RandStep) (t iters : Nat) : List RandStep :=
  (List.range iters).map (rng t)

/-- Observable output of the driver loop: the `(step_size, checksum)`
of each completed trial in order, the `step_size` field of each Record
appended to the csv sink (lines 122-135) in append order, and the
panic that aborted the run, if any. -/
structure DriverOut where
  trials : List (Nat × Nat)
  records : List Nat
  err : Option TrialErr
  deriving DecidableEq

/-- The driver loop of `run_test` (lines 84-137): while `step_size ≤
max_step_size`, run one trial from a fresh `position = 0`, `sum = 0`,
append one Record when an output sink is configured (`out = true`),
then double `step_size`.  A panicking trial aborts the run; `fuel`
bounds the number of loop entries examined. -/
def runDriver (mem : List Nat) (total_size iters : Nat)
    (rng : Nat → Nat → RandStep) (out : Bool) :
    Nat → Nat → Nat → Nat → DriverOut
  | 0, _, _, _ => { trials := [], records := [], err := none }
  | f + 1, t, s, M =>
    if s ≤ M then
      match runTrial mem total_size s (trialRand rng t iters) initState with
      | .error e => { trials := [], records := [], err := some e }
      | .ok st =>
        let rest := runDriver mem total_size iters rng out f (t + 1) (nextStep s) M
        { trials := (s, st.sum) :: rest.trials,
          records := (if out then [s] else []) ++ rest.records,
          err := rest.err }
    else { trials := [], records := [], err := none }

/-- The persisted Record row (lines 16-22).  `steps_per_second` is an
`f32` in the source; its exact numeric type is irrelevant to the
plot-bounds logic, which only compares values, so it is modelled as a
rational. -/
structure RecordM where
  start_time : Nat
  step_size : Nat
  total_duration_millis : Nat
  steps_per_second : Rat

/-- Rust's `Option::ok_or`. -/
def okOr : Option α → ε → Except ε α
  | some a, _ => .ok a
  | none, e => .error e

/-- The axis-bounds computation of `plot_data` (lines 155-169):
`min`/`max` of the step sizes and the maximum observed throughput,
each turned into an explicit error by `ok_or("No data")` when the
record list is empty. -/
def plotBounds (data : List RecordM) : Except String (Nat × Nat × Rat) := do
  let min_x ← okOr ((data.map RecordM.step_size).min?) "No data"
  let max_x ← okOr ((data.map RecordM.step_size).max?) "No data"
  let max_y ← okOr ((data.map RecordM.steps_per_second).max?) "No data"
  return (min_x, max_x, max_y)

/-- Modelled from the spec: the `Observer` of the progress-observer
crate is an external dependency whose source is not part of this
repository.  Per §4.3 its state is the time of the last emitted
signal, initially unset, together with the configured minimum interval
and first-checkpoint iteration count. -/
structure ObsState where
  interval : Nat
  firstCheckpoint : Nat
  lastSignal : Option Nat
  deriving DecidableEq

/-- Modelled from the spec (§4.3): `observe(index) -> bool` fed the
simulated clock reading `now` (milliseconds).  While no signal has
been emitted the reporter fires exactly at the first-checkpoint
iteration (the checkpoint counts iterations, so count 1000 is 0-based
index 999, §8); afterwards it fires whenever at least `interval` has
elapsed since the last emitted signal, recording the current time. -/
def observe (o : ObsState) (index now : Nat) : Bool × ObsState :=
  match o.lastSignal with
  | none =>
    if index + 1 = o.firstCheckpoint then
      (true, { o with lastSignal := some now })
    else (false, o)
  | some t =>
    if t + o.interval ≤ now then
      (true, { o with lastSignal := some now })
    else (false, o)

/-- Modelled from the spec: the configuration used by `run_test`
(lines 89-95) — 100 ms interval, first checkpoint 1000. -/
def obsInit : ObsState :=
  { interval := 100, firstCheckpoint := 1000, lastSignal := none }

/-- Reporter state before feeding index `n`, when indices `0, 1, ...`
are fed in order under the simulated clock `clock`. -/
def obsStates (clock : Nat → Nat) : Nat → ObsState
  | 0 => obsInit
  | n + 1 => (observe (obsStates clock n) n (clock n)).2

/-- The boolean the reporter yields at index `n` under `clock`. -/
def signal (clock : Nat → Nat) (n : Nat) : Bool :=
  (observe (obsStates clock n) n (clock n)).1

/-! ### Helper lemmas about one loop iteration -/

/-- The updated position is reduced modulo `total_size`. -/
theorem updatePos_lt {total_size : Nat} (p step : Nat) (dir : Bool)
    (hts : 1 ≤ total_size) : updatePos total_size p step dir < total_size := by
  unfold updatePos
  exact Nat.mod_lt _ (by omega)

/-- A successful iteration reports an in-range `position`. -/
theorem stepIter_ok_pos {mem : List Nat} {total_size step_size : Nat}
    {s s' : TrialState} {r : RandStep} (hts : 1 ≤ total_size)
    (h : stepIter mem total_size step_size s r = .ok s') :
    s'.position < total_size := by
  unfold stepIter at h
  split at h
  · exact absurd h (by simp)
  · split at h
    · exact absurd h (by simp)
    · split at h
      · exact absurd h (by simp)
      · simp only [Except.ok.injEq] at h
        subst h
        exact updatePos_lt _ _ _ hts

/-- C1: for every trial of the Stride Sampler with `step_size ≥ 1` and
`total_size ≥ 1`, after each per-iteration position update (wrapping
add or subtract of the step at word width followed by reduction modulo
`total_size`, lines 101-106) the position satisfies
`0 ≤ position < total_size`: every intermediate state of the sampling
loop has `position < total_size` (the lower bound holds because
`position` is a natural number). -/
theorem c1_position_invariant (mem : List Nat) (total_size step_size : Nat)
    (rs : List RandStep) (s0 : TrialState)
    (hts : 1 ≤ total_size) (_hss : 1 ≤ step_size) :
    ∀ s ∈ trialStates mem total_size step_size rs s0, s.position < total_size := by
  induction rs generalizing s0 with
  | nil => intro s hs; simp [trialStates] at hs
  | cons r rs ih =>
    intro s hs
    unfold trialStates at hs
    cases heq : stepIter mem total_size step_size s0 r with
    | error e => rw [heq] at hs; simp at hs
    | ok s1 =>
      rw [heq] at hs
      rcases List.mem_cons.mp hs with rfl | hs
      · exact stepIter_ok_pos hts heq
      · exact ih s1 s hs

/-- Witness for C1 at a concrete input. -/
theorem c1_position_invariant_witness : (⟨0, 7⟩ : TrialState).position < 1 :=
  c1_position_invariant [7] 1 1 [⟨0, true⟩] initState (by decide) (by decide)
    ⟨0, 7⟩ (by decide)

/-- C5: in every iteration of the sampling loop the step actually used
for the position update — a fresh full-width draw reduced modulo
`step_size` (lines 99-100) — satisfies `0 ≤ step < step_size` (the
lower bound holds because the step is a natural number). -/
theorem c5_step_bounded (step_size : Nat) (r : RandStep)
    (h : 1 ≤ step_size) : drawStep step_size r < step_size := by
  unfold drawStep
  exact Nat.mod_lt _ (by omega)

/-- Witness for C5 at a concrete input. -/
theorem c5_step_bounded_witness : drawStep 3 ⟨7, true⟩ < 3 :=
  c5_step_bounded 3 ⟨7, true⟩ (by decide)

/-- C10: when the buffer has length `total_size ≥ 1`, the read
`mem[position]` of each iteration is in bounds — the out-of-bounds
outcome of the total embedding is unreachable, because `position` is
reduced modulo `total_size` immediately before the read; and when
`total_size = 0` while an iteration executes (with a nonzero
`step_size`, so the step draw itself does not panic first), the modulo
reduction of `position` is a division by zero. -/
theorem c10_read_safety (mem : List Nat) (total_size step_size : Nat)
    (s : TrialState) (r : RandStep) :
    (mem.length = total_size → 1 ≤ total_size →
      stepIter mem total_size step_size s r ≠ .error .oob)
  ∧ (total_size = 0 → 1 ≤ step_size →
      stepIter mem total_size step_size s r = .error .divZeroPos) := by
  constructor
  · intro hlen hts h
    unfold stepIter at h
    split at h
    · exact absurd h (by simp)
    · split at h
      · exact absurd h (by simp)
      · split at h
        · rename_i hnone
          rw [List.get?_eq_none] at hnone
          have hlt := updatePos_lt s.position (drawStep step_size r) r.dir hts
          omega
        · exact absurd h (by simp)
  · intro h0 hss
    unfold stepIter
    rw [if_neg (by omega), if_pos h0]

/-- Witness for C10 at concrete inputs for both conjuncts. -/
theorem c10_read_safety_witness :
    (stepIter [5] 1 1 initState ⟨0, true⟩ ≠ .error .oob)
  ∧ (stepIter [] 0 1 initState ⟨0, true⟩ = .error .divZeroPos) :=
  ⟨(c10_read_safety [5] 1 1 initState ⟨0, true⟩).1 rfl (by decide),
   (c10_read_safety [] 0 1 initState ⟨0, true⟩).2 rfl (by decide)⟩

/-- C7: plotting a data file containing zero Records fails with the
distinct, explicit `"No data"` error — in `plot_data` the missing
minimum/maximum is converted by `ok_or("No data")` into an error
result rather than unwrapped. -/
theorem c7_plot_empty_no_data : plotBounds [] = Except.error "No data" := rfl

/-! ### The instrumented loop agrees with the plain loop -/

/-- One instrumented iteration is the plain iteration with each
counter bumped exactly once. -/
theorem stepIterInstr_eq (mem : List Nat) (total_size step_size : Nat)
    (s : TrialState) (c : TrialCounters) (r : RandStep) :
    stepIterInstr mem total_size step_size s c r =
      (stepIter mem total_size step_size s r).map
        (fun s' => (s', ⟨c.updates + 1, c.reads + 1, c.adds + 1⟩)) := by
  unfold stepIterInstr stepIter
  split
  · rfl
  · split
    · rfl
    · split <;> rfl

/-- A successful instrumented run of the sampling loop bumps each
counter once per input draw and computes the plain loop's state. -/
theorem runTrialInstr_ok (mem : List Nat) (total_size step_size : Nat) :
    ∀ (rs : List RandStep) (s s' : TrialState) (c c' : TrialCounters),
    runTrialInstr mem total_size step_size rs (s, c) = .ok (s', c') →
      c'.updates = c.updates + rs.length ∧ c'.reads = c.reads + rs.length ∧
      c'.adds = c.adds + rs.length ∧
      runTrial mem total_size step_size rs s = .ok s' := by
  intro rs
  induction rs with
  | nil =>
    intro s s' c c' h
    simp only [runTrialInstr, Except.ok.injEq, Prod.mk.injEq] at h
    obtain ⟨rfl, rfl⟩ := h
    simp [runTrial]
  | cons r rs ih =>
    intro s s' c c' h
    simp only [runTrialInstr, stepIterInstr_eq] at h
    cases heq : stepIter mem total_size step_size s r with
    | error e => rw [heq] at h; exact absurd h (by simp [Except.map])
    | ok s1 =>
      rw [heq] at h
      simp only [Except.map] at h
      obtain ⟨h1, h2, h3, h4⟩ := ih s1 s' _ c' h
      refine ⟨?_, ?_, ?_, ?_⟩
      · simp at h1; simp [List.length_cons]; omega
      · simp at h2; simp [List.length_cons]; omega
      · simp at h3; simp [List.length_cons]; omega
      · simp only [runTrial, heq]; exact h4

/-- C4: a trial of the sampling loop over `N > 0` input draws (the
`iterations` count) executes exactly `N` steps — exactly `N` position
updates, exactly `N` buffer reads and exactly `N` wrapping 8-bit
checksum additions — and its result is the final checksum state of
the loop. -/
theorem c4_exact_iteration_counts (mem : List Nat) (total_size step_size : Nat)
    (rs : List RandStep) (s : TrialState) (c : TrialCounters)
    (_hN : 0 < rs.length)
    (h : runTrialInstr mem total_size step_size rs (initState, ⟨0, 0, 0⟩) = .ok (s, c)) :
    c.updates = rs.length ∧ c.reads = rs.length ∧ c.adds = rs.length ∧
      runTrial mem total_size step_size rs initState = .ok s := by
  obtain ⟨h1, h2, h3, h4⟩ :=
    runTrialInstr_ok mem total_size step_size rs initState s ⟨0, 0, 0⟩ c h
  exact ⟨by simpa using h1, by simpa using h2, by simpa using h3, h4⟩

/-- Witness for C4 at a concrete two-iteration trial. -/
theorem c4_exact_iteration_counts_witness :
    (⟨2, 2, 2⟩ : TrialCounters).updates = 2 ∧
    (⟨2, 2, 2⟩ : TrialCounters).reads = 2 ∧
    (⟨2, 2, 2⟩ : TrialCounters).adds = 2 ∧
    runTrial [9] 1 1 [⟨0, true⟩, ⟨1, false⟩] initState = .ok ⟨0, 18⟩ := by
  have h := c4_exact_iteration_counts [9] 1 1 [⟨0, true⟩, ⟨1, false⟩]
    ⟨0, 18⟩ ⟨2, 2, 2⟩ (by decide) rfl
  simpa using h

/-! ### The driver loop's step-size sequence -/

/-- While every entered step size stays below `2 ^ 63` the doubling
never wraps, and the loop terminates having entered exactly the
geometric step sizes `s * 2 ^ k` that are at most `M`. -/
theorem driverSteps_geom (M : Nat) (hM : M < 2 ^ 63) :
    ∀ (n s : Nat), 1 ≤ s → M < s * 2 ^ n →
      ∃ m, m ≤ n ∧ driverSteps (n + 1) s M = ((List.range m).map fun k => s * 2 ^ k)
        ∧ (∀ k, k < m → s * 2 ^ k ≤ M) ∧ M < s * 2 ^ m := by
  intro n
  induction n with
  | zero =>
    intro s hs hlt
    rw [pow_zero, mul_one] at hlt
    refine ⟨0, le_refl 0, ?_, by omega, by simpa using hlt⟩
    simp [driverSteps, Nat.not_le.mpr hlt]
  | succ n ih =>
    intro s hs hlt
    by_cases hcase : s ≤ M
    · have h2s : nextStep s = 2 * s := by
        unfold nextStep USIZE
        have h1 : s * 2 < 2 ^ 64 := by
          have : (2 : Nat) ^ 63 * 2 = 2 ^ 64 := by norm_num
          omega
        rw [Nat.mod_eq_of_lt h1]
        ring
      have hlt2 : M < 2 * s * 2 ^ n := by
        have : s * 2 ^ (n + 1) = 2 * s * 2 ^ n := by rw [pow_succ]; ring
        omega
      obtain ⟨m, hmn, hds, hall, hgt⟩ := ih (2 * s) (by omega) hlt2
      have hfun : ((fun k => s * 2 ^ k) ∘ Nat.succ) = fun k => 2 * s * 2 ^ k := by
        funext k
        simp only [Function.comp, pow_succ]
        ring
      refine ⟨m + 1, by omega, ?_, ?_, ?_⟩
      · rw [driverSteps, if_pos hcase, h2s, hds,
          List.range_succ_eq_map, List.map_cons, List.map_map, hfun]
        simp
      · intro k hk
        cases k with
        | zero => simpa using hcase
        | succ j =>
          have := hall j (by omega)
          have heq : s * 2 ^ (j + 1) = 2 * s * 2 ^ j := by rw [pow_succ]; ring
          omega
      · have heq : s * 2 ^ (m + 1) = 2 * s * 2 ^ m := by rw [pow_succ]; ring
        omega
    · refine ⟨0, by omega, ?_, by omega, ?_⟩
      · simp [driverSteps, hcase]
      · rw [pow_zero, mul_one]; omega

/-- C2 (amended): for `1 ≤ initial_step_size` and `max_step_size <
2 ^ 63` — so that the `usize` doubling `step_size <<= 1` never wraps —
the driver loop terminates having run trials at exactly the step sizes
`s0, 2*s0, 4*s0, ...` up to and including the largest term `≤ M` (so
the trial with `step_size = M` runs when `M` is a term), and when
`s0 > M` no trials run at all (the produced list is empty).  Without
the `M < 2 ^ 63` bound the claim is false: see the counterexample. -/
theorem c2_doubling_sequence (s0 M : Nat) (hs : 1 ≤ s0) (hM : M < 2 ^ 63) :
    ∃ n, loopTerm s0 M ((List.range n).map fun k => s0 * 2 ^ k)
      ∧ (∀ k, k < n → s0 * 2 ^ k ≤ M) ∧ M < s0 * 2 ^ n := by
  have hlt : M < s0 * 2 ^ 64 := by
    have h1 : (2 : Nat) ^ 63 < 2 ^ 64 := by norm_num
    have h2 : 2 ^ 64 ≤ s0 * 2 ^ 64 := Nat.le_mul_of_pos_left _ (by omega)
    omega
  obtain ⟨m, hmn, hds, hall, hgt⟩ := driverSteps_geom M hM 64 s0 hs hlt
  refine ⟨m, ⟨65, hds, ?_⟩, hall, hgt⟩
  simp only [List.length_map, List.length_range]
  omega

/-- Witness for C2 at `s0 = 1`, `M = 4` (trials at step sizes 1, 2, 4). -/
theorem c2_doubling_sequence_witness :
    ∃ n, loopTerm 1 4 ((List.range n).map fun k => 1 * 2 ^ k)
      ∧ (∀ k, k < n → 1 * 2 ^ k ≤ 4) ∧ 4 < 1 * 2 ^ n :=
  c2_doubling_sequence 1 4 (by norm_num) (by norm_num)

/-- C2 counterexample: at `initial_step_size = max_step_size = 2 ^ 63`
(a valid `usize` configuration) the claim as stated is false.  The
geometric sequence up to `M` is the single trial `[2 ^ 63]`, but after
that trial `step_size <<= 1` wraps to `0`, which still satisfies the
loop condition, so the driver never stops after the geometric
prefix — it re-enters with step size `0` (where the trial's
`step % step_size` is a division by zero). -/
theorem c2_doubling_sequence_cex :
    ¬ ∃ n, loopTerm (2 ^ 63) (2 ^ 63) ((List.range n).map fun k => 2 ^ 63 * 2 ^ k)
      ∧ (∀ k, k < n → 2 ^ 63 * 2 ^ k ≤ 2 ^ 63) ∧ 2 ^ 63 < 2 ^ 63 * 2 ^ n := by
  rintro ⟨n, ⟨f, hds, hlen⟩, hall, hgt⟩
  have hn : n = 1 := by
    rcases n with _ | _ | n
    · norm_num at hgt
    · rfl
    · have := hall 1 (by omega)
      norm_num at this
  subst hn
  have hlist : ((List.range 1).map fun k => 2 ^ 63 * 2 ^ k) = [2 ^ 63] := by
    simp [List.range_succ]
  rw [hlist] at hds hlen
  simp only [List.length_cons, List.length_nil] at hlen
  obtain ⟨f', rfl⟩ : ∃ f', f = f' + 2 := ⟨f - 2, by omega⟩
  have hnext : nextStep (2 ^ 63) = 0 := by
    unfold nextStep USIZE
    norm_num
  rw [show f' + 2 = (f' + 1) + 1 from rfl, driverSteps, if_pos (le_refl _), hnext,
    driverSteps, if_pos (Nat.zero_le _)] at hds
  simp at hds

/-- C3 (amended): of the two ways to violate the configuration
invariant `1 ≤ initial_step_size ≤ max_step_size`, only the
upper-bound violation `initial_step_size > max_step_size` makes the
driver complete normally with zero trials, silently.  A lower-bound
violation (`initial_step_size = 0`) instead satisfies the loop
condition `step_size ≤ max_step_size`, so the driver enters a trial
with step size `0` whose first iteration panics on `step % step_size`
(division by zero) whenever `iterations ≥ 1`. -/
theorem c3_config_violation :
    (∀ s0 M : Nat, M < s0 → loopTerm s0 M [])
  ∧ (∀ (mem : List Nat) (total_size iters : Nat) (rng : Nat → Nat → RandStep)
      (out : Bool) (f t M : Nat), 1 ≤ iters → 1 ≤ f →
      (runDriver mem total_size iters rng out f t 0 M).err = some .divZeroStep) := by
  constructor
  · intro s0 M h
    refine ⟨1, ?_, by simp⟩
    simp [driverSteps, Nat.not_le.mpr h]
  · intro mem total_size iters rng out f t M hi hf
    obtain ⟨f', rfl⟩ : ∃ f', f = f' + 1 := ⟨f - 1, by omega⟩
    obtain ⟨k, rfl⟩ : ∃ k, iters = k + 1 := ⟨iters - 1, by omega⟩
    obtain ⟨r, rs, htr⟩ : ∃ r rs, trialRand rng t (k + 1) = r :: rs := by
      cases h : trialRand rng t (k + 1) with
      | nil =>
        have hlen : (trialRand rng t (k + 1)).length = k + 1 := by simp [trialRand]
        rw [h] at hlen
        simp at hlen
      | cons r rs => exact ⟨r, rs, rfl⟩
    have htrial : runTrial mem total_size 0 (r :: rs) initState
        = .error .divZeroStep := by
      simp [runTrial, stepIter]
    simp only [runDriver]
    rw [if_pos (Nat.zero_le M), htr, htrial]

/-- Witness for C3 at concrete inputs for both conjuncts. -/
theorem c3_config_violation_witness :
    loopTerm 5 4 []
  ∧ (runDriver [] 0 1 (fun _ _ => ⟨0, true⟩) false 1 0 0 7).err
      = some .divZeroStep :=
  ⟨c3_config_violation.1 5 4 (by norm_num),
   c3_config_violation.2 [] 0 1 (fun _ _ => ⟨0, true⟩) false 1 0 7
     (by norm_num) (by norm_num)⟩

/-- C3 counterexample: with the lower bound violated as
`initial_step_size = 0` (and `max_step_size = 4`), the driver does not
complete normally having run zero trials — the loop condition `0 ≤ 4`
holds, so a trial is entered. -/
theorem c3_config_violation_cex : ¬ loopTerm 0 4 [] := by
  rintro ⟨f, hds, hlen⟩
  simp only [List.length_nil] at hlen
  obtain ⟨f', rfl⟩ : ∃ f', f = f' + 1 := ⟨f - 1, by omega⟩
  rw [driverSteps, if_pos (by omega)] at hds
  simp at hds

/-! ### Record emission by the driver loop -/

/-- With a sink configured, the appended record step sizes are exactly
the step sizes of the completed trials, in order. -/
theorem runDriver_records_trials (mem : List Nat) (total_size iters : Nat)
    (rng : Nat → Nat → RandStep) :
    ∀ (f t s M : Nat),
      (runDriver mem total_size iters rng true f t s M).records
        = ((runDriver mem total_size iters rng true f t s M).trials).map Prod.fst := by
  intro f
  induction f with
  | zero => intro t s M; rfl
  | succ f ih =>
    intro t s M
    simp only [runDriver]
    split
    · split
      · rfl
      · simp [ih]
    · rfl

/-- With no sink configured, no records are appended. -/
theorem runDriver_records_nosink (mem : List Nat) (total_size iters : Nat)
    (rng : Nat → Nat → RandStep) :
    ∀ (f t s M : Nat),
      (runDriver mem total_size iters rng false f t s M).records = [] := by
  intro f
  induction f with
  | zero => intro t s M; rfl
  | succ f ih =>
    intro t s M
    simp only [runDriver]
    split
    · split
      · rfl
      · simp [ih]
    · rfl

/-- Below the wrap bound every completed trial's step size is at least
the step size the loop was entered with. -/
theorem runDriver_trials_lb (mem : List Nat) (total_size iters : Nat)
    (rng : Nat → Nat → RandStep) (out : Bool) (M : Nat) (hM : M < 2 ^ 63) :
    ∀ (f t s : Nat) (p : Nat × Nat),
      p ∈ (runDriver mem total_size iters rng out f t s M).trials → s ≤ p.1 := by
  intro f
  induction f with
  | zero => intro t s p hp; simp [runDriver] at hp
  | succ f ih =>
    intro t s p hp
    simp only [runDriver] at hp
    split at hp
    · rename_i hsM
      split at hp
      · simp at hp
      · rcases List.mem_cons.mp hp with rfl | hp
        · simp
        · have hnext : nextStep s = 2 * s := by
            unfold nextStep USIZE
            have h1 : s * 2 < 2 ^ 64 := by
              have : (2 : Nat) ^ 63 * 2 = 2 ^ 64 := by norm_num
              omega
            rw [Nat.mod_eq_of_lt h1]
            ring
          have := ih (t + 1) (nextStep s) p hp
          omega
    · simp at hp

/-- Below the wrap bound the completed trials' step sizes are strictly
increasing. -/
theorem runDriver_trials_sorted (mem : List Nat) (total_size iters : Nat)
    (rng : Nat → Nat → RandStep) (out : Bool) (M : Nat) (hM : M < 2 ^ 63) :
    ∀ (f t s : Nat), 1 ≤ s →
      (((runDriver mem total_size iters rng out f t s M).trials).map Prod.fst).Pairwise (· < ·) := by
  intro f
  induction f with
  | zero => intro t s hs; simp [runDriver]
  | succ f ih =>
    intro t s hs
    simp only [runDriver]
    split
    · rename_i hsM
      split
      · simp
      · have hnext : nextStep s = 2 * s := by
          unfold nextStep USIZE
          have h1 : s * 2 < 2 ^ 64 := by
            have : (2 : Nat) ^ 63 * 2 = 2 ^ 64 := by norm_num
            omega
          rw [Nat.mod_eq_of_lt h1]
          ring
        simp only [List.map_cons, List.pairwise_cons]
        constructor
        · intro q hq
          obtain ⟨p, hp, rfl⟩ := List.mem_map.mp hq
          have := runDriver_trials_lb mem total_size iters rng out M hM f (t + 1)
            (nextStep s) p hp
          omega
        · exact ih (t + 1) (nextStep s) (by omega)
    · simp

/-- C6 (amended): when an output sink is configured exactly one Record
is appended per completed trial and the appended sequence is in trial
order (its step sizes are exactly the completed trials' step sizes, in
order); when no sink is configured no Records are emitted.  The trial
order is ascending in `step_size` provided `max_step_size < 2 ^ 63`,
so that the doubling never wraps; without that bound the order can
fail to be ascending (see the counterexample). -/
theorem c6_record_emission (mem : List Nat) (total_size iters : Nat)
    (rng : Nat → Nat → RandStep) (f t s0 M : Nat)
    (hs : 1 ≤ s0) (hM : M < 2 ^ 63) :
    (runDriver mem total_size iters rng true f t s0 M).records
      = ((runDriver mem total_size iters rng true f t s0 M).trials).map Prod.fst
  ∧ (runDriver mem total_size iters rng false f t s0 M).records = []
  ∧ ((runDriver mem total_size iters rng true f t s0 M).records).Pairwise (· < ·) := by
  refine ⟨runDriver_records_trials mem total_size iters rng f t s0 M,
    runDriver_records_nosink mem total_size iters rng f t s0 M, ?_⟩
  rw [runDriver_records_trials mem total_size iters rng f t s0 M]
  exact runDriver_trials_sorted mem total_size iters rng true M hM f t s0 hs

/-- Witness for C6 at a concrete run (trials at step sizes 1, 2, 4). -/
theorem c6_record_emission_witness :
    (runDriver [0] 1 1 (fun _ _ => ⟨0, true⟩) true 4 0 1 4).records
      = ((runDriver [0] 1 1 (fun _ _ => ⟨0, true⟩) true 4 0 1 4).trials).map Prod.fst
  ∧ (runDriver [0] 1 1 (fun _ _ => ⟨0, true⟩) false 4 0 1 4).records = []
  ∧ ((runDriver [0] 1 1 (fun _ _ => ⟨0, true⟩) true 4 0 1 4).records).Pairwise (· < ·) :=
  c6_record_emission [0] 1 1 (fun _ _ => ⟨0, true⟩) 4 0 1 4 (by norm_num) (by norm_num)

/-- C6 counterexample: a run whose appended records are not in
ascending `step_size` order.  With `initial_step_size = 3 * 2 ^ 62`,
`max_step_size = 2 ^ 64 - 1` (valid `usize` values) and one iteration
per trial over a one-byte buffer, the first two trials complete at
step sizes `3 * 2 ^ 62` and then — after the doubling wraps —
`2 ^ 63 < 3 * 2 ^ 62`, so the two appended records descend. -/
theorem c6_record_emission_cex :
    (runDriver [0] 1 1 (fun _ _ => ⟨0, true⟩) true 4 0 (3 * 2 ^ 62) (2 ^ 64 - 1)).records
      = [3 * 2 ^ 62, 2 ^ 63]
  ∧ ¬ ((runDriver [0] 1 1 (fun _ _ => ⟨0, true⟩) true 4 0 (3 * 2 ^ 62) (2 ^ 64 - 1)).records).Pairwise (· ≤ ·) := by
  constructor
  · decide
  · intro h
    have heq : (runDriver [0] 1 1 (fun _ _ => ⟨0, true⟩) true 4 0 (3 * 2 ^ 62) (2 ^ 64 - 1)).records
        = [3 * 2 ^ 62, 2 ^ 63] := by decide
    rw [heq] at h
    have := (List.pairwise_cons.mp h).1 (2 ^ 63) (by simp)
    norm_num at this

/-! ### Behaviour of the modelled Progress Reporter -/

/-- Unfolding of the initial reporter configuration. -/
theorem obsInit_unfold : obsInit = ⟨100, 1000, none⟩ := rfl

/-- Reporter step while no signal has been emitted yet. -/
theorem observe_unset (interval fc index now : Nat) :
    observe ⟨interval, fc, none⟩ index now =
      if index + 1 = fc then (true, ⟨interval, fc, some now⟩)
      else (false, ⟨interval, fc, none⟩) := rfl

/-- Reporter step after a signal was emitted at time `t`. -/
theorem observe_set (interval fc t index now : Nat) :
    observe ⟨interval, fc, some t⟩ index now =
      if t + interval ≤ now then (true, ⟨interval, fc, some now⟩)
      else (false, ⟨interval, fc, some t⟩) := rfl

/-- One-step unfolding of the reporter state at a successor index,
stated for a variable index so that uses at large literal indices do
not force a deep kernel reduction. -/
theorem obsStates_succ (clock : Nat → Nat) (n : Nat) :
    obsStates clock (n + 1) = (observe (obsStates clock n) n (clock n)).2 := rfl

/-- Unfolding of the yielded boolean, stated for a variable index. -/
theorem signal_eq (clock : Nat → Nat) (n : Nat) :
    signal clock n = (observe (obsStates clock n) n (clock n)).1 := rfl

/-- An iteration that does not signal leaves the reporter unchanged. -/
theorem signal_false_state (clock : Nat → Nat) (n : Nat)
    (h : signal clock n = false) :
    obsStates clock (n + 1) = obsStates clock n := by
  unfold signal at h
  show (observe (obsStates clock n) n (clock n)).2 = obsStates clock n
  rcases hs : obsStates clock n with ⟨iv, fc, ls⟩
  rw [hs] at h
  cases ls with
  | none =>
    rw [observe_unset] at h ⊢
    split at h
    · simp at h
    · rename_i hcond
      rw [if_neg hcond]
  | some t =>
    rw [observe_set] at h ⊢
    split at h
    · simp at h
    · rename_i hcond
      rw [if_neg hcond]

/-- An iteration that signals records the current clock reading. -/
theorem signal_true_lastSignal (clock : Nat → Nat) (n : Nat)
    (h : signal clock n = true) :
    (obsStates clock (n + 1)).lastSignal = some (clock n) := by
  unfold signal at h
  show ((observe (obsStates clock n) n (clock n)).2).lastSignal = some (clock n)
  rcases hs : obsStates clock n with ⟨iv, fc, ls⟩
  rw [hs] at h
  cases ls with
  | none =>
    rw [observe_unset] at h ⊢
    split at h
    · rename_i hcond
      rw [if_pos hcond]
    · simp at h
  | some t =>
    rw [observe_set] at h ⊢
    split at h
    · rename_i hcond
      rw [if_pos hcond]
    · simp at h

/-- The reporter's configured interval never changes. -/
theorem obsStates_interval (clock : Nat → Nat) :
    ∀ n, (obsStates clock n).interval = 100 := by
  intro n
  induction n with
  | zero => rfl
  | succ n ih =>
    show ((observe (obsStates clock n) n (clock n)).2).interval = 100
    rcases hs : obsStates clock n with ⟨iv, fc, ls⟩
    rw [hs] at ih
    simp only at ih
    cases ls with
    | none => rw [observe_unset]; split <;> simpa using ih
    | some t => rw [observe_set]; split <;> simpa using ih

/-- Up to the first-checkpoint index the reporter state is untouched. -/
theorem obsStates_pre (clock : Nat → Nat) :
    ∀ n, n ≤ 999 → obsStates clock n = obsInit := by
  intro n
  induction n with
  | zero => intro _; rfl
  | succ n ih =>
    intro h
    show (observe (obsStates clock n) n (clock n)).2 = obsInit
    rw [ih (by omega), obsInit_unfold, observe_unset, if_neg (by omega)]

/-- Over a gap with no signals the recorded last-signal time is
preserved. -/
theorem lastSignal_gap (clock : Nat → Nat) (i : Nat) :
    ∀ j, i + 1 ≤ j → (∀ k, i < k → k < j → signal clock k = false) →
      (obsStates clock j).lastSignal = (obsStates clock (i + 1)).lastSignal := by
  intro j
  induction j with
  | zero => intro h; omega
  | succ j ih =>
    intro hj hk
    rcases Nat.lt_or_ge (i + 1) (j + 1) with h | h
    · have hj' : signal clock j = false := hk j (by omega) (by omega)
      rw [signal_false_state clock j hj']
      exact ih (by omega) (fun k h1 h2 => hk k h1 (by omega))
    · have : i + 1 = j + 1 := by omega
      rw [this]

/-- C9 (spec-modelled): the Progress Reporter configured with a first
checkpoint of 1000 iterations and a 100 ms minimum interval, fed the
iteration indices in order under any simulated clock, yields `true`
for the first time exactly at index 999 regardless of elapsed time
(never before, and at 999 unconditionally), and any two true signals
with no true signal between them are separated by at least 100 ms of
simulated clock time — so no two refreshes are closer together than
the interval. -/
theorem c9_reporter_rate_limit (clock : Nat → Nat) :
    (∀ n, n < 999 → signal clock n = false)
  ∧ signal clock 999 = true
  ∧ (∀ i j, i < j → j < 2000 → signal clock i = true → signal clock j = true →
      (∀ k, i < k → k < j → signal clock k = false) →
      clock i + 100 ≤ clock j) := by
  refine ⟨?_, ?_, ?_⟩
  · intro n hn
    rw [signal_eq, obsStates_pre clock n (by omega), obsInit_unfold, observe_unset,
      if_neg (by omega)]
  · rw [signal_eq, obsStates_pre clock 999 (le_refl _), obsInit_unfold, observe_unset,
      if_pos (by norm_num)]
  · intro i j hij hj2000 hi hj hgap
    have h1 : (obsStates clock j).lastSignal = some (clock i) := by
      rw [lastSignal_gap clock i j (by omega) hgap]
      exact signal_true_lastSignal clock i hi
    have h2 := obsStates_interval clock j
    rw [signal_eq] at hj
    rcases hs : obsStates clock j with ⟨iv, fc, ls⟩
    rw [hs] at h1 h2 hj
    simp only at h1 h2
    subst h1 h2
    rw [observe_set] at hj
    split at hj
    · assumption
    · simp at hj

/-- At index 1000 the reporter carries the time recorded at the
first-checkpoint signal of index 999. -/
theorem obsStates_1000 (clock : Nat → Nat) :
    obsStates clock 1000 = ⟨100, 1000, some (clock 999)⟩ := by
  have h0 : (1000 : Nat) = 999 + 1 := by norm_num
  rw [h0, obsStates_succ, obsStates_pre clock 999 (le_refl _), obsInit_unfold,
    observe_unset, if_pos (by norm_num)]

/-- Witness for C9: under the concrete simulated clock advancing
100 ms per iteration, the checkpoint signal fires at index 999 and the
next signal at index 1000 is at least 100 ms later. -/
theorem c9_reporter_rate_limit_witness :
    signal (fun n => 100 * n) 999 = true
  ∧ (fun n : Nat => 100 * n) 999 + 100 ≤ (fun n : Nat => 100 * n) 1000 := by
  have h1000 : signal (fun n => 100 * n) 1000 = true := by
    rw [signal_eq, obsStates_1000, observe_set, if_pos (by norm_num)]
  refine ⟨(c9_reporter_rate_limit (fun n => 100 * n)).2.1, ?_⟩
  exact (c9_reporter_rate_limit (fun n => 100 * n)).2.2 999 1000 (by omega)
    (by omega) (c9_reporter_rate_limit (fun n => 100 * n)).2.1 h1000
    (fun k hk1 hk2 => absurd hk1 (by omega))
